import Mathlib

/-!
Verification of the [[15,7,3]] self-dual Hamming CSS error-correction
notebook.  The relevant parts of the program are embedded shallowly:

* `H_matrix`, `H_std`, `logical_zero_components` are the literal data of the
  notebook.
* Syndrome extraction follows the CX accumulation in `CSS_correction`: for
  each row of the check matrix, one ancilla collects the XOR of the error
  bits at the positions where that row is 1; the classical register packs
  ancilla r into bit r of the syndrome integer.
* The correction stage of `CSS_correction` is a sequence of branches, branch
  i firing when the syndrome register equals i + 1.
* `pauli_error_numpy` is embedded as the list of gates the function appends
  to its one-qubit circuit, as a function of the parameter p and of the one
  uniform draw u (the value of `np.random.rand()`); real comparisons are
  modelled over ℚ.
* The codeword strings of `logical_zero_components` are written in
  measurement order: the program compares them with keys from qiskit
  `get_counts`, whose leftmost character is the highest qubit index, so
  character j of a string is the bit of qubit 14 − j.
-/

namespace CSSCode

/-- The self-dual [[15,7,3]] Hamming code check matrix from the notebook;
it serves as both the X-type and the Z-type check matrix. -/
def H_matrix : List (List Nat) :=
  [[1,0,1,0,1,0,1,0,1,0,1,0,1,0,1],
   [0,1,1,0,0,1,1,0,0,1,1,0,0,1,1],
   [0,0,0,1,1,1,1,0,0,0,0,1,1,1,1],
   [0,0,0,0,0,0,0,1,1,1,1,1,1,1,1]]

/-- The row-reduced standard form of `H_matrix` from the notebook, obtained
by swapping the 3rd and 4th rows and the 3rd and 8th columns (1-indexed). -/
def H_std : List (List Nat) :=
  [[1,0,0,0,1,0,1,1,1,0,1,0,1,0,1],
   [0,1,0,0,0,1,1,1,0,1,1,0,0,1,1],
   [0,0,1,0,0,0,0,0,1,1,1,1,1,1,1],
   [0,0,0,1,1,1,1,0,0,0,0,1,1,1,1]]

/-- The precomputed components of the logical all-zero state, verbatim from
the notebook; each string is in measurement order (qubit 14 first). -/
def logical_zero_components : List String :=
  ["110000110011110",
   "011010011001011",
   "000000000000000",
   "101001010101101",
   "101010101010101",
   "010101011010101",
   "001100111100110",
   "100110010110011",
   "111111110000000",
   "111100001111000",
   "100101101001011",
   "110011001100110",
   "000011111111000",
   "010110100101101",
   "001111000011110",
   "011001100110011"]

/-- One syndrome bit: the XOR of the error bits at the positions where the
given row of the check matrix is 1, exactly the value accumulated on one
ancilla by the CX loop of `CSS_correction`. -/
def syndromeBit (row : List Nat) (e : List Bool) : Bool :=
  (List.zip row e).foldl (fun acc p => xor acc (decide (p.1 = 1) && p.2)) false

/-- The syndrome integer: ancilla r is measured into classical bit r, so bit
r of the register sits at binary position r. -/
def syndromeInt (H : List (List Nat)) (e : List Bool) : Nat :=
  H.enum.foldl (fun acc p => acc + (if syndromeBit p.2 e then 2 ^ p.1 else 0)) 0

/-- The X syndrome of `CSS_correction`: `H_matrix` applied to the X-error
bits. -/
def xSyndrome (e : List Bool) : Nat := syndromeInt H_matrix e

/-- The Z syndrome of `CSS_correction`: by self-duality the same `H_matrix`
is applied to the Z-error bits (the phase-kickback CX loop flips Z-ancilla r
exactly when the Z errors overlap row r oddly). -/
def zSyndrome (e : List Bool) : Nat := syndromeInt H_matrix e

/-- The indices of the encoding qubits whose correction branch fires: in
`CSS_correction`, branch i (for i in 0..14) tests whether the syndrome
register equals i + 1. -/
def firedCorrections (s : Nat) : List Nat :=
  (List.range 15).filter (fun i => s == i + 1)

/-- The length-15 error vector with exactly one bit set, at index q. -/
def unitVec (q : Nat) : List Bool :=
  (List.range 15).map (fun i => i == q)

/-- Column i of a check matrix read as an integer with row 0 as the least
significant bit. -/
def colVal (H : List (List Nat)) (i : Nat) : Nat :=
  H.enum.foldl (fun acc p => acc + p.2.getD i 0 * 2 ^ p.1) 0

/-- Swap the entries at indices i and j of a list (with default d outside
the range). -/
def swapIdx (l : List α) (d : α) (i j : Nat) : List α :=
  (List.range l.length).map (fun r =>
    if r = i then l.getD j d else if r = j then l.getD i d else l.getD r d)

/-- Swap two rows of a binary matrix. -/
def swapRows (M : List (List Nat)) (i j : Nat) : List (List Nat) :=
  swapIdx M [] i j

/-- Swap two columns of a binary matrix. -/
def swapCols (M : List (List Nat)) (i j : Nat) : List (List Nat) :=
  M.map (fun row => swapIdx row 0 i j)

/-- Decode one codeword string into the bit vector indexed by qubit: the
strings are in measurement order (qubit 14 first), matching the program's
comparison with qiskit count keys, so the characters are reversed. -/
def toBits (s : String) : List Bool :=
  s.data.reverse.map (fun c => c == '1')

/-- Coordinatewise XOR of two bit vectors. -/
def xorVec (a b : List Bool) : List Bool :=
  (List.zip a b).map (fun p => xor p.1 p.2)

/-- A matrix row as a bit vector. -/
def rowBits (row : List Nat) : List Bool :=
  row.map (fun x => x == 1)

/-- The GF(2) linear combination of the rows of `H_std` selected by the
bits of c: the support element produced by the H-and-CX encoding loop of
`CSS_correction` for one choice of pivot-qubit values. -/
def rowCombo (c : Nat) : List Bool :=
  (List.range 4).foldl
    (fun acc i => if c.testBit i then xorVec acc (rowBits (H_std.getD i [])) else acc)
    (List.replicate 15 false)

/-- One codeword of the stabilizer closure: a row combination of `H_std`
followed by the final swap of qubits 2 and 7 in `CSS_correction`. -/
def codewordVec (c : Nat) : List Bool :=
  swapIdx (rowCombo c) false 2 7

/-- All 2^4 codewords generated by the encoding operation sequence. -/
def generatedCodewords : List (List Bool) :=
  (List.range 16).map codewordVec

/-- Boolean containment of one list of bit vectors in another. -/
def subListOf (xs ys : List (List Bool)) : Bool :=
  xs.all (fun w => ys.contains w)

/-- Hamming weight of a bit vector. -/
def weight (w : List Bool) : Nat :=
  w.foldl (fun acc b => if b then acc + 1 else acc) 0

/-- A single-qubit Pauli gate as appended by the samplers. -/
inductive Gate
  | x
  | y
  | z
deriving DecidableEq

/-- The gate list `pauli_error_numpy` appends to its one-qubit circuit: p is
the error parameter and u the value of the single uniform draw
`np.random.rand()`; the three tests are three independent if statements,
exactly as in the source (not elif), so several gates can be appended for
one draw. -/
def pauli_error_numpy (p u : ℚ) : List Gate :=
  (if u < p then [Gate.x] else []) ++
  (if u < 2 * p then [Gate.y] else []) ++
  (if u < 3 * p then [Gate.z] else [])

/-- A gate's symplectic (X-component, Z-component) pair: X = (1,0),
Y = (1,1), Z = (0,1). -/
def gateXZ : Gate → Bool × Bool
  | Gate.x => (true, false)
  | Gate.y => (true, true)
  | Gate.z => (false, true)

/-- Composition of Paulis up to global phase: componentwise XOR of the
symplectic pairs. -/
def mulXZ (a b : Bool × Bool) : Bool × Bool :=
  (xor a.1 b.1, xor a.2 b.2)

/-- The net Pauli (up to global phase) of a gate sequence. -/
def netPauli (gs : List Gate) : Bool × Bool :=
  gs.foldl (fun acc g => mulXZ acc (gateXZ g)) (false, false)

/-- One element of a noise circuit: either a fixed Pauli gate (as appended
by `pauli_error_numpy` at construction time) or the measurement-driven
Pauli application of `pauli_error`, which consumes one fresh uniform draw
each time the circuit is run. -/
inductive Op
  | gate (g : Gate)
  | sampleDraw (p : ℚ)

/-- The Pauli outcome of one run-time measurement in `pauli_error`: the
prepared ancilla state yields X, Y, Z with probability p each and identity
otherwise, so a fresh uniform draw u selects X on [0,p), Y on [p,2p), Z on
[2p,3p) and identity on [3p,1). -/
def sampleOutcome (p u : ℚ) : Bool × Bool :=
  if u < p then (true, false)
  else if u < 2 * p then (true, true)
  else if u < 3 * p then (false, true)
  else (false, false)

/-- Run a noise circuit against a stream of fresh uniform draws, returning
the accumulated net Pauli and the number of draws consumed: fixed gates
ignore the stream, measurement-driven operations consume one draw each. -/
def runOps : List Op → (Nat → ℚ) → Nat → Bool × Bool → (Bool × Bool) × Nat
  | [], _, k, acc => (acc, k)
  | Op.gate g :: rest, s, k, acc => runOps rest s k (mulXZ acc (gateXZ g))
  | Op.sampleDraw p :: rest, s, k, acc =>
      runOps rest s (k + 1) (mulXZ acc (sampleOutcome p (s k)))

/-- The net Pauli outcome of one run of a noise circuit. -/
def runCircuit (ops : List Op) (s : Nat → ℚ) : Bool × Bool :=
  (runOps ops s 0 (false, false)).1

/-- The circuit `pauli_error_numpy` constructs: only fixed gates, the
randomness u having been drawn once, at construction time. -/
def numpyCircuit (p u : ℚ) : List Op :=
  (pauli_error_numpy p u).map Op.gate

/-- A list of fixed gates consumes no run-time randomness: running it gives
the same net Pauli for any draw stream and any starting position. -/
theorem runOps_gates_indep (gs : List Gate) (s₁ s₂ : Nat → ℚ) (k₁ k₂ : Nat)
    (acc : Bool × Bool) :
    (runOps (gs.map Op.gate) s₁ k₁ acc).1 = (runOps (gs.map Op.gate) s₂ k₂ acc).1 := by
  induction gs generalizing k₁ k₂ acc with
  | nil => rfl
  | cons g rest ih => simpa [runOps] using ih k₁ k₂ (mulXZ acc (gateXZ g))

/-- C1: for every length-15 error vector with exactly one bit set, at index
q — applied as an X-error vector or as a Z-error vector — the syndrome
computed from `H_matrix` equals q + 1, and the correction stage fires
exactly the branch testing syndrome value q + 1, i.e. corrects exactly
qubit q. -/
theorem single_error_syndrome_and_correction :
    ∀ q : Fin 15,
      xSyndrome (unitVec q.val) = q.val + 1 ∧
      zSyndrome (unitVec q.val) = q.val + 1 ∧
      firedCorrections (xSyndrome (unitVec q.val)) = [q.val] ∧
      firedCorrections (zSyndrome (unitVec q.val)) = [q.val] := by
  decide

/-- C2: the set of bit vectors obtained from all 2^4 GF(2) combinations of
the rows of `H_std`, with coordinates 2 and 7 then swapped (the final swap
gate inverting the column permutation), equals — as a set — the 16 strings
of `logical_zero_components` (read in the program's measurement-order
convention). -/
theorem encoder_codeword_set_eq :
    subListOf generatedCodewords (logical_zero_components.map toBits) = true ∧
    subListOf (logical_zero_components.map toBits) generatedCodewords = true := by
  decide

/-- C3: for every column index i in 0..14, column i of `H_matrix`, read with
row 0 as the least significant bit, is the binary representation of i + 1. -/
theorem columns_encode_index : ∀ i : Fin 15, colVal H_matrix i.val = i.val + 1 := by
  decide

/-- C4: `H_std` equals `H_matrix` with rows 3 and 4 swapped and then columns
3 and 8 swapped (1-indexed; zero-based rows 2,3 and columns 2,7), and the
first 4 columns of `H_std` form the 4×4 identity block. -/
theorem H_std_from_row_and_column_swap :
    swapCols (swapRows H_matrix 2 3) 2 7 = H_std ∧
    (∀ i : Fin 4, ∀ j : Fin 4,
      (H_std.getD i.val []).getD j.val 0 = if i.val = j.val then 1 else 0) := by
  decide

/-- C5: `logical_zero_components` has exactly 16 entries, contains the
all-zero string, is closed under coordinatewise XOR, and every entry has
both X-syndrome and Z-syndrome 0 under `H_matrix`. -/
theorem codeword_set_invariants :
    logical_zero_components.length = 16 ∧
    List.replicate 15 false ∈ logical_zero_components.map toBits ∧
    (logical_zero_components.all (fun a => logical_zero_components.all (fun b =>
      (logical_zero_components.map toBits).contains (xorVec (toBits a) (toBits b)))) = true) ∧
    (logical_zero_components.all (fun w =>
      (xSyndrome (toBits w) == 0) && (zSyndrome (toBits w) == 0)) = true) := by
  decide

/-- C6 (code bug): the sub-intervals of the draw u do not implement one
Pauli each.  At p = 1/5, the draw u = 1/10 ∈ [0,p) makes `pauli_error_numpy`
append all three gates X, Y, Z — net Pauli the identity up to global phase,
not the single X the claim describes (X alone would be (true, false)) — and
u = 3/10 ∈ [p,2p) appends Y and Z, net Pauli X rather than Y: the three
stacked if statements should be mutually exclusive. -/
theorem pauli_error_numpy_stacked_ifs :
    pauli_error_numpy (1/5) (1/10) = [Gate.x, Gate.y, Gate.z] ∧
    netPauli (pauli_error_numpy (1/5) (1/10)) = (false, false) ∧
    gateXZ Gate.x = (true, false) ∧
    pauli_error_numpy (1/5) (3/10) = [Gate.y, Gate.z] ∧
    netPauli (pauli_error_numpy (1/5) (3/10)) = (true, false) ∧
    gateXZ Gate.y = (true, true) := by
  norm_num [pauli_error_numpy, netPauli, mulXZ, gateXZ]

/-- C7 counterexample: at p = 1/2, which is outside [0, 1/3], the sampler
does not fail — it returns an ordinary gate list. -/
theorem no_parameter_validation_counterexample :
    ¬ ((1:ℚ)/2 ≤ 1/3) ∧ pauli_error_numpy (1/2) (9/10) = [Gate.y, Gate.z] := by
  norm_num [pauli_error_numpy]

/-- C7 amended: the samplers perform no domain validation; for every p
outside [0, 1/3] the call still returns a normal sample — a sublist of the
gates X, Y, Z — instead of raising an error. -/
theorem sampler_returns_without_validation (p u : ℚ) (h : ¬ (0 ≤ p ∧ p ≤ 1/3)) :
    (pauli_error_numpy p u).Sublist [Gate.x, Gate.y, Gate.z] := by
  clear h
  unfold pauli_error_numpy
  split <;> split <;> split <;> decide

/-- Witness for the amended C7 at the concrete out-of-range value p = 1/2. -/
theorem sampler_returns_without_validation_witness :
    ¬ ((0:ℚ) ≤ 1/2 ∧ (1:ℚ)/2 ≤ 1/3) ∧
    (pauli_error_numpy (1/2) (9/10)).Sublist [Gate.x, Gate.y, Gate.z] :=
  ⟨by norm_num, sampler_returns_without_validation (1/2) (9/10) (by norm_num)⟩

/-- C8: for the all-zero error vector the computed X- and Z-syndromes are 0
and no correction branch fires, since the branches test only the syndrome
values 1..15. -/
theorem zero_error_no_correction :
    xSyndrome (List.replicate 15 false) = 0 ∧
    zSyndrome (List.replicate 15 false) = 0 ∧
    firedCorrections 0 = [] := by
  decide

/-- C9: a circuit constructed by `pauli_error_numpy` is deterministic under
replay — its run consumes no fresh randomness, so any two runs give the
same net Pauli — while reconstructing with a different construction-time
draw can change the outcome (here u = 3/10 gives net X, u = 9/10 gives the
identity, at p = 1/5). -/
theorem replay_deterministic :
    (∀ p u : ℚ, ∀ s₁ s₂ : Nat → ℚ,
      runCircuit (numpyCircuit p u) s₁ = runCircuit (numpyCircuit p u) s₂) ∧
    (∃ u₁ u₂ : ℚ, ∀ s : Nat → ℚ,
      runCircuit (numpyCircuit (1/5) u₁) s ≠ runCircuit (numpyCircuit (1/5) u₂) s) := by
  constructor
  · intro p u s₁ s₂
    exact runOps_gates_indep (pauli_error_numpy p u) s₁ s₂ 0 0 (false, false)
  · refine ⟨3/10, 9/10, fun s => ?_⟩
    have h₁ : runCircuit (numpyCircuit (1/5) (3/10)) s
        = runCircuit (numpyCircuit (1/5) (3/10)) (fun _ => 0) :=
      runOps_gates_indep (pauli_error_numpy (1/5) (3/10)) s (fun _ => 0) 0 0 (false, false)
    have h₂ : runCircuit (numpyCircuit (1/5) (9/10)) s
        = runCircuit (numpyCircuit (1/5) (9/10)) (fun _ => 0) :=
      runOps_gates_indep (pauli_error_numpy (1/5) (9/10)) s (fun _ => 0) 0 0 (false, false)
    rw [h₁, h₂]
    norm_num [runCircuit, numpyCircuit, pauli_error_numpy, runOps, mulXZ, gateXZ]

/-- C10: every nonzero string of `logical_zero_components` has Hamming
weight exactly 8, and the 16 strings are pairwise distinct. -/
theorem codewords_weight_eight_distinct :
    (logical_zero_components.all (fun s =>
      (toBits s == List.replicate 15 false) || (weight (toBits s) == 8)) = true) ∧
    logical_zero_components.Nodup := by
  decide

end CSSCode
